import Mathlib

/-
Shallow embedding of `src/src/erlang/node/node.go` (package `node` of the
eclus repository).

Modelling conventions:
  * Go maps are modelled as association lists; `m[k] = v` on a possibly
    fresh key is modelled by `alistInsert` (replace-or-prepend, keeping keys
    unique), and `m[k] = v` on a key known to be present by `alistUpdate`.
  * A Go buffered channel is modelled as a FIFO list of the values it holds,
    paired with the capacity it was created with; a send on a buffered
    channel is modelled as an enqueue (the delivery that eventually happens
    once the consumer drains), while a send on the `nil` channel of a
    zero-value `procChannels` (the result of a map miss) can never be
    received and is modelled by the outcome `blocked`.
  * Machine integers become `Nat` with an explicit `% 2^w` exactly where the
    source can overflow (`uint32` pid ids, `uint16` ports and creations,
    `byte` pid creation).
  * An out-of-range tuple access (a Go slice-index panic) is the outcome
    `panicked`.
-/

set_option autoImplicit false

namespace EclusNode

/-- `term.Atom`: an interned string (spec section 3). -/
abbrev Atom := String

/-- `term.Pid` with fields `Node`, `Id`, `Serial` (uint32) and `Creation`
(byte), as used by node.go. Equality is structural. -/
structure Pid where
  Node : Atom
  Id : Nat
  Serial : Nat
  Creation : Nat
deriving DecidableEq, Repr

/-- The Go zero value of `term.Pid`, produced by a map read that misses
(`pid, _ = currNode.registered[who]`, node.go line 235) and by the
uninitialised `var toPid term.Pid` of `RegSend` (line 224). -/
def Pid.zero : Pid := ⟨"", 0, 0, 0⟩

/-- `term.Term`: structural wire values. The `term` package lives outside
src/; per the spec (section 1, section 3) it is consumed opaquely, providing
symbolic names, numeric values, process identities and ordered tuples, and
this core only discriminates on the shape and extracts elements. -/
inductive Term where
  | atom (a : Atom)
  | int (i : Int)
  | pid (p : Pid)
  | tuple (ts : List Term)

/-- Modelled from the spec: `term.Tuple.Element(i)` — the `term` package is
outside src/; spec section 3 specifies "ordered fixed-size tuples with
1-based positional access". An out-of-range access yields `none`, which the
call sites of node.go turn into the `panicked` outcome (a Go slice-index
panic). -/
def Element (ts : List Term) (i : Nat) : Option Term :=
  ts.get? (i - 1)

/-- `procChannels` (node.go lines 36-40): the three channels handed to every
spawned process, modelled as FIFO lists plus the capacity each channel was
created with in `Spawn`. The source field `in` is renamed `inQ` (Lean
keyword); `inFrom` and `ctl` keep their names. -/
structure ProcChannels where
  inQ : List Term
  inFrom : List Term
  ctl : List Term
  inCap : Int
  inFromCap : Int
  ctlCap : Int

/-- First-match lookup in an association list (the read of a Go map). -/
def alistLookup {α β : Type} [DecidableEq α] : List (α × β) → α → Option β
  | [], _ => none
  | kv :: rest, k => if kv.1 = k then some kv.2 else alistLookup rest k

/-- Go map assignment `m[k] = v` for a possibly fresh key: any previous
binding of `k` is removed and the new one added; keys stay unique. -/
def alistInsert {α β : Type} [DecidableEq α] (l : List (α × β)) (k : α) (v : β) : List (α × β) :=
  (k, v) :: l.filter (fun kv => decide (kv.1 ≠ k))

/-- Go map assignment `m[k] = v` for a key already present: the bound value
is replaced in place, the key set is untouched. -/
def alistUpdate {α β : Type} [DecidableEq α] (l : List (α × β)) (k : α) (v : β) : List (α × β) :=
  l.map (fun kv => if kv.1 = k then (k, v) else kv)

/-- `Node` (node.go lines 28-34) flattened together with the embedded
`epmd.NodeInfo` (constructed at node.go lines 54-64). The `Type` field is
renamed `Type'` (Lean keyword); the unused lowercase `port int32` field is
omitted (never read or written in node.go). `Port` is uint16, `Creation`
uint16. -/
structure Node where
  FullName : String
  Name : String
  Domain : String
  Port : Nat
  Type' : Nat
  Protocol : Nat
  HighVsn : Nat
  LowVsn : Nat
  Creation : Nat
  Cookie : String
  channels : List (Pid × ProcChannels)
  registered : List (Atom × Pid)

/-- Go `strings.Split(s, sep)` for a one-character separator, on the
character list of the string: `splitChar s c` cuts `s` at every occurrence
of `c`. `splitChar [] c = [[]]`, matching Go. -/
def splitChar : List Char → Char → List (List Char)
  | [], _ => [[]]
  | a :: rest, c =>
    if a = c then
      [] :: splitChar rest c
    else
      match splitChar rest c with
      | [] => [[a]]
      | h :: t => (a :: h) :: t

/-- `strings.Split(name, "@")` as used by `NewNode` (node.go line 53). -/
def goSplit (s : String) (c : Char) : List String :=
  (splitChar s.data c).map (fun l => ⟨l⟩)

/-- `NewNode(name, cookie)` (node.go lines 50-73): splits `name` at `"@"`
and builds the node descriptor with empty channel and registry tables.
Go indexes `ns[0]` and `ns[1]` without a length check; when the split has
fewer than two parts (no `'@'` in `name`) that is an index-out-of-range
panic, modelled as `none`. -/
def NewNode (name cookie : String) : Option Node :=
  let ns := goSplit name '@'
  match ns.get? 0, ns.get? 1 with
  | some n0, some n1 =>
    some { FullName := name, Name := n0, Domain := n1, Port := 0, Type' := 77,
           Protocol := 0, HighVsn := 5, LowVsn := 5, Creation := 0,
           Cookie := cookie, channels := [], registered := [] }
  | _, _ => none

/-- A value of the loosely-typed option bag passed to `Spawn`
(`map[string]interface{}`): either an `int` (the only type the source
asserts) or anything else. -/
inductive OptVal where
  | int (i : Int)
  | other

/-- The Go type assertion `options[k].(int)`: `some v` exactly when the key
is present and bound to an `int`. -/
def optInt (options : List (String × OptVal)) (k : String) : Option Int :=
  match alistLookup options k with
  | some (OptVal.int v) => some v
  | _ => none

/-- The loop body of `allocatePid` (node.go lines 130-135):
`if k.Id >= id { id = k.Id + 1 }`, with the uint32 increment wrapping at
`2^32`. Folding over the association list models one iteration order of the
Go map (the result is order-independent as long as no id reaches
`2^32 - 1`). -/
def allocId (chs : List (Pid × ProcChannels)) : Nat :=
  chs.foldl (fun id kv => if id ≤ kv.1.Id then (kv.1.Id + 1) % 2 ^ 32 else id) 0

/-- `allocatePid` (node.go lines 128-141): scans the channel table for the
largest id, returns a pid on this node with that id plus one, serial 0 and
the node creation truncated to a byte. -/
def allocatePid (n : Node) : Pid :=
  { Node := n.FullName, Id := allocId n.channels, Serial := 0,
    Creation := n.Creation % 2 ^ 8 }

/-- `storeProcess` (node.go lines 122-126): allocates a pid and inserts the
channels under it. Returns the updated node and the pid. -/
def storeProcess (n : Node) (chs : ProcChannels) : Node × Pid :=
  let pid := allocatePid n
  ({ n with channels := alistInsert n.channels pid chs }, pid)

/-- `Spawn` (node.go lines 85-106), with the spawned process represented by
its `Behaviour()` option bag (the behaviour loop goroutine performs no node
mutation and is not modelled). The source reads the option `"chan-size"`
twice:
`chanSize, ok := options["chan-size"].(int); if !ok { chanSize = 100 }` and
then `ctlChanSize, ok := options["chan-size"].(int); if !ok { chanSize = 100 }`
— note that the second `if` body assigns `chanSize` (again), so on a failed
assertion `ctlChanSize` keeps its zero value 0.
`make(chan T, size)` panics at run time for a negative size, so a negative
`"chan-size"` int aborts `Spawn` before any process is created: the first
two `make` calls guard `chanSize`, the third guards `ctlChanSize`, and the
panic is modelled as `none`. (The `makechan` "size out of range" panic for
astronomically large sizes depends on the allocator's limits, not on the
value semantics, and is not modelled.) -/
def Spawn (n : Node) (options : List (String × OptVal)) : Option (Node × Pid) :=
  let chanSize : Int :=
    match optInt options "chan-size" with
    | some v => v
    | none => 100
  let ctlChanSize : Int :=
    match optInt options "chan-size" with
    | some v => v
    | none => 0
  if chanSize < 0 then none
  else if ctlChanSize < 0 then none
  else
    let pcs : ProcChannels :=
      { inQ := [], inFrom := [], ctl := [],
        inCap := chanSize, inFromCap := chanSize, ctlCap := ctlChanSize }
    some (storeProcess n pcs)

/-- `Register` (node.go lines 108-110): `n.registered[name] = pid`. -/
def Register (n : Node) (name : Atom) (pid : Pid) : Node :=
  { n with registered := alistInsert n.registered name pid }

/-- `Registered` (node.go lines 112-120): the keys of the registry, in the
map's (arbitrary) iteration order — here the list order. -/
def Registered (n : Node) : List Atom :=
  n.registered.map Prod.fst

/-- `Whereis` (node.go lines 234-237): `pid, _ = currNode.registered[who]` —
the comma-ok flag is discarded, so a miss yields the zero-value pid. -/
def Whereis (n : Node) (who : Atom) : Pid :=
  match alistLookup n.registered who with
  | some p => p
  | none => Pid.zero

/-- Outcome of dispatching a frame or sending a message: `ok n` is a normal
return with updated node state `n`; `blocked` is a send on the nil channel
of a zero-value `procChannels` (never delivers, never returns); `panicked`
is a Go runtime panic (out-of-range tuple access). -/
inductive HResult where
  | ok (n : Node)
  | blocked
  | panicked

/-- `SendFrom` (node.go lines 239-243):
`pcs := currNode.channels[to]; pcs.inFrom <- term.Tuple{from, message}`.
When `to` is present the pair is enqueued on its `inFrom` channel; when it
is absent the zero-value `procChannels` has a nil `inFrom` channel and the
send blocks forever. -/
def SendFrom (n : Node) (fr : Term) (to' : Pid) (message : Term) : HResult :=
  match alistLookup n.channels to' with
  | some pcs =>
    let pcs' : ProcChannels := { pcs with inFrom := pcs.inFrom ++ [Term.tuple [fr, message]] }
    HResult.ok { n with channels := alistUpdate n.channels to' pcs' }
  | none => HResult.blocked

/-- `Send` (node.go lines 245-249):
`pcs := currNode.channels[to]; pcs.in <- message`; same map-miss behaviour
as `SendFrom` (nil channel, blocks forever). -/
def Send (n : Node) (to' : Pid) (message : Term) : HResult :=
  match alistLookup n.channels to' with
  | some pcs =>
    let pcs' : ProcChannels := { pcs with inQ := pcs.inQ ++ [message] }
    HResult.ok { n with channels := alistUpdate n.channels to' pcs' }
  | none => HResult.blocked

/-- Modelled from the spec: the `REG_SEND` opcode constant referenced by
`handleTerms` is declared elsewhere in package `node`, outside src/. The
spec (sections 1, 4.5) names it only as "the registered send opcode"; the
Erlang distribution protocol value 6 is used. No settled claim depends on
the numeric value. -/
def REG_SEND : Int := 6

/-- `RegSend` (node.go lines 222-232): resolves the destination — a pid is
used directly, an atom goes through `Whereis`, anything else leaves the
zero-value `var toPid term.Pid` — then performs `SendFrom`. -/
def RegSend (n : Node) (fr to' message : Term) : HResult :=
  let toPid : Pid :=
    match to' with
    | Term.pid tp => tp
    | Term.atom a => Whereis n a
    | _ => Pid.zero
  SendFrom n fr toPid message

/-- `handleTerms` (node.go lines 196-220): dispatch of one decoded frame.
Empty frames return; a first term that is a non-empty tuple whose element 1
is the integer `REG_SEND` requires exactly two top-level terms, extracts
elements 2 and 4 of the control tuple and calls `RegSend` with the second
top-level term as message; every other shape is logged and dropped. The
`Element` calls at line 210 are not length-guarded: a control tuple shorter
than 4 panics. -/
def handleTerms (n : Node) (terms : List Term) : HResult :=
  match terms with
  | [] => HResult.ok n
  | Term.tuple t :: rest =>
    if 0 < t.length then
      match Element t 1 with
      | some (Term.int act) =>
        if act = REG_SEND then
          match rest with
          | [message] =>
            match Element t 2, Element t 4 with
            | some fr, some to' => RegSend n fr to' message
            | _, _ => HResult.panicked
          | _ => HResult.ok n
        else HResult.ok n
      | _ => HResult.ok n
    else HResult.ok n
  | _ :: _ => HResult.ok n

/-- The response the `epmdC` goroutine (node.go lines 251-285) reacts to:
either the `net.Dial` to port 4369 failed, or an `ALIVE2_RESP` frame arrived
and `epmd.Read_ALIVE2_RESP` (external codec, spec section 1: "ParseResponse
-> (creationNumber, ok)") parsed it as `some creation` or failed (`none`). -/
inductive EpmdResponse where
  | dialFailure
  | alive2Resp (parsed : Option Nat)

/-- The uint16 value `epmdC` sends on its `resp` channel (node.go lines
255, 276-278): 100 on a dial failure, the parsed creation on a successful
parse, 99 on a failed parse. -/
def epmdCResult : EpmdResponse → Nat
  | EpmdResponse.dialFailure => 100
  | EpmdResponse.alive2Resp none => 99
  | EpmdResponse.alive2Resp (some creation) => creation % 2 ^ 16

/-- The two startup errors `Publish` can construct from the handshake
(node.go lines 158-161). -/
inductive PublishError where
  | duplicateName
  | cannotConnect
deriving DecidableEq, Repr

/-- Result of `Publish`: the node state after the call, whether the accept
loop was started, and the error returned (if any). -/
structure PublishResult where
  node : Node
  accepting : Bool
  error : Option PublishError

/-- `prepareProcesses` (node.go lines 75-83): spawns the `netKernel` and
`globalNameServer` support processes and registers them under the fixed
names `"net_kernel"` and `"global_name_server"`. Modelled from the spec for
the option bags: the two process descriptors live outside src/ and the spec
(section 4.4 step 5) only says "two well-known support processes are spawned
and registered under fixed symbolic names", so both are modelled with an
empty option list; no settled claim depends on their option bags. With an
empty option bag the capacities are 100 and 0, both non-negative, so the
`make` panic guard of `Spawn` cannot fire and the `none` fallbacks below
(which return the state reached so far) are unreachable. -/
def prepareProcesses (n : Node) : Node :=
  match Spawn n [] with
  | none => n
  | some s1 =>
    let n1 := Register s1.1 "net_kernel" s1.2
    match Spawn n1 [] with
    | none => n1
    | some s2 => Register s2.1 "global_name_server" s2.2

/-- `Publish` (node.go lines 147-179) after a successful `net.Listen`
(a bind failure returns before any of the modelled steps): sets `n.Port`
to the (uint16-truncated) port, runs the epmd handshake, and switches on
the creation value received: 99 returns the duplicate-name error, 100 the
cannot-connect error — in both cases without starting the accept loop —
and anything else stores the creation, starts the accept goroutine and runs
`prepareProcesses`. -/
def Publish (n : Node) (port : Nat) (resp : EpmdResponse) : PublishResult :=
  let n1 := { n with Port := port % 2 ^ 16 }
  let creation := epmdCResult resp
  if creation = 99 then
    { node := n1, accepting := false, error := some PublishError.duplicateName }
  else if creation = 100 then
    { node := n1, accepting := false, error := some PublishError.cannotConnect }
  else
    { node := prepareProcesses { n1 with Creation := creation },
      accepting := true, error := none }

/-- Folding all calls of a sequence of `Register` invocations over a node,
first call first. -/
def registerAll (n : Node) (calls : List (Atom × Pid)) : Node :=
  calls.foldl (fun m c => Register m c.1 c.2) n

/-- Spec phrase (section 4.1): "the maximum id currently present in the
table" — 0 for an empty table. -/
def maxId (chs : List (Pid × ProcChannels)) : Nat :=
  chs.foldl (fun a kv => max a kv.1.Id) 0

/-- Spec phrase (claim about `NewNode`): "the substring before the first
`'@'`". -/
def specShortName (s : String) : String :=
  ⟨s.data.takeWhile (fun a => decide (a ≠ '@'))⟩

/-- Spec phrase (claim about `NewNode`): "the substring after [the first
`'@'`]" — everything following the first `'@'`, further `'@'` characters
included. -/
def specAfterFirstAt (s : String) : String :=
  ⟨(s.data.dropWhile (fun a => decide (a ≠ '@'))).tail⟩

/-- What the source actually stores as the domain: the second field of the
`'@'`-split, i.e. the characters strictly between the first `'@'` and the
next `'@'` (the rest of the string when there is no second `'@'`). -/
def specDomainSecondPart (s : String) : String :=
  ⟨((s.data.dropWhile (fun a => decide (a ≠ '@'))).tail).takeWhile (fun a => decide (a ≠ '@'))⟩

/-- A concrete node as built by `NewNode "a@b" "c"`: fresh descriptor with
empty channel and registry tables. -/
def tN : Node :=
  { FullName := "a@b", Name := "a", Domain := "b", Port := 0, Type' := 77,
    Protocol := 0, HighVsn := 5, LowVsn := 5, Creation := 0,
    Cookie := "c", channels := [], registered := [] }

/-- A fresh, empty mailbox with the default capacities. -/
def pcs0 : ProcChannels := ⟨[], [], [], 100, 100, 100⟩

/-- A concrete pid on node `a@b` with id 1. -/
def p1 : Pid := ⟨"a@b", 1, 0, 0⟩

/-- A concrete pid on node `a@b` with id 0. -/
def pid0 : Pid := ⟨"a@b", 0, 0, 0⟩

/-- A concrete pid whose id is the largest uint32 value. -/
def pidMax : Pid := ⟨"a@b", 2 ^ 32 - 1, 0, 0⟩

/-- A node whose process table holds ids 0 and `2^32 - 1`: the state at
which the uint32 increment of `allocatePid` wraps. -/
def nOv : Node := { tN with channels := [(pid0, pcs0), (pidMax, pcs0)] }

/-- A node holding only the pid `2^32 - 1`. -/
def nMaxOnly : Node := { tN with channels := [(pidMax, pcs0)] }

/-- A node with one live process `p1` registered under the name `"foo"`. -/
def nReg : Node := { tN with channels := [(p1, pcs0)], registered := [("foo", p1)] }

/-- A `REG_SEND` frame: control tuple `{REG_SEND, sender, cookie, "foo"}`
followed by the payload `"hello"`. -/
def frameW : List Term :=
  [Term.tuple [Term.int REG_SEND, Term.pid pid0, Term.atom "", Term.atom "foo"],
   Term.atom "hello"]

/-- `nReg` after `frameW` is dispatched: the pair (sender, payload) sits on
`p1`'s `inFrom` queue. -/
def nReg' : Node :=
  { tN with
    channels := [(p1, { pcs0 with inFrom := [Term.tuple [Term.pid pid0, Term.atom "hello"]] })],
    registered := [("foo", p1)] }

/-- A node with a live process `p1` but an empty registry. -/
def nUnb : Node := { tN with channels := [(p1, pcs0)] }

/-- A node whose registry binds `"foo"` to `p1` although `p1` has no entry
in the process table (reachable: `Register` accepts any pid). -/
def nAbs : Node := { tN with registered := [("foo", p1)] }

/-- A node with one live process, used to instantiate the allocation
theorem. -/
def n5 : Node := { tN with channels := [(p1, pcs0)] }

/-- A concrete sequence of register calls with a repeated name. -/
def callsW : List (Atom × Pid) := [("x", p1), ("y", pid0), ("x", pid0)]

/-- C3: `Send` to an identity absent from the process table does not fail
with an explicit NotFound result — the source looks up the missing entry,
obtains a zero-value `procChannels`, and the send on its nil `in` channel
blocks forever without delivering (node.go lines 245-249). Evaluated on a
fresh node with an empty process table. -/
theorem send_unknown_pid_blocks :
    Send tN p1 (Term.atom "m") = HResult.blocked ∧ tN.channels = [] := by
  exact ⟨rfl, rfl⟩

/-- C4: `Whereis` on a never-registered name does not return an explicit
not-found result — the source discards the comma-ok flag of the map read
(`pid, _ = currNode.registered[who]`, node.go line 235) and hands back the
zero-valued pid. Evaluated on a fresh node with an empty registry. -/
theorem whereis_unregistered_returns_zero_pid :
    Whereis tN "x" = Pid.zero ∧ tN.registered = [] := by
  exact ⟨rfl, rfl⟩

/-- C5: registration overwrites any prior binding — after
`Register name id1; Register name id2`, `Whereis name` returns `id2` and
the registry holds a binding for `name` (the map read succeeds); likewise a
single `Register name id` is immediately visible to `Whereis`. -/
theorem register_last_write_wins :
    ∀ (n : Node) (name : Atom) (id1 id2 : Pid),
      Whereis (Register (Register n name id1) name id2) name = id2 ∧
      alistLookup (Register (Register n name id1) name id2).registered name = some id2 ∧
      Whereis (Register n name id2) name = id2 ∧
      alistLookup (Register n name id2).registered name = some id2 := by
  intro n name id1 id2
  refine ⟨?_, ?_, ?_, ?_⟩ <;> simp [Whereis, Register, alistInsert, alistLookup]

/-- C1 counterexample: in the reachable state `nAbs` the name `"foo"` is
bound in the registry (to `p1`), yet dispatching a well-formed `REG_SEND`
frame to `"foo"` delivers nothing — `p1` has no process-table entry, so the
send blocks forever on the nil channel of a zero-value `procChannels`
instead of enqueuing on any attributed queue. -/
theorem regsend_bound_name_no_mailbox_blocks :
    alistLookup nAbs.registered "foo" = some p1 ∧
    handleTerms nAbs frameW = HResult.blocked := by
  exact ⟨rfl, rfl⟩

/-- C2 counterexample: at the uint32 boundary the increment of
`allocatePid` wraps. With only the id `2^32 - 1` in the table the returned
id is 0, not "one greater than the maximum"; with ids 0 and `2^32 - 1`
(in that iteration order) the returned identity is exactly the existing
entry `pid0`, so it *is* already present in the table. -/
theorem allocatePid_wraps_at_uint32_max :
    (allocatePid nMaxOnly).Id = 0 ∧
    maxId nMaxOnly.channels + 1 = 2 ^ 32 ∧
    (0 : Nat) ≠ 2 ^ 32 ∧
    allocatePid nOv = pid0 ∧
    pid0 ∈ nOv.channels.map Prod.fst := by
  refine ⟨by decide, by decide, by decide, by decide, ?_⟩
  simp [nOv, pid0, tN]

/-- C6 counterexample: the source recognises no `mailbox-size` or
`control-size` option (it reads `"chan-size"` for both), and on an empty
option bag the control queue capacity is 0, not 100 — the default branch
for `ctlChanSize` mistakenly assigns `chanSize` (node.go lines 91-94). The
spawned mailbox records the capacities (100, 100, 0) in both cases: the
`mailbox-size` option is simply never read. -/
theorem spawn_sizes_differ_from_claim :
    Spawn tN [] = some (storeProcess tN ⟨[], [], [], 100, 100, 0⟩) ∧
    ((0 : Int) ≠ 100) ∧
    Spawn tN [("mailbox-size", OptVal.int 5)] = some (storeProcess tN ⟨[], [], [], 100, 100, 0⟩) ∧
    ((100 : Int) ≠ 5) := by
  exact ⟨rfl, by decide, rfl, by decide⟩

/-- C7 counterexample: a handshake response that parses as the *valid*
creation stamp 99 (`Read_ALIVE2_RESP` succeeded) is indistinguishable, on
the in-band `resp` channel, from a parse failure: `Publish` returns the
duplicate-name error and never starts accepting, although the claim
promises no error for every valid creation stamp. -/
theorem publish_valid_creation_99_errors :
    (Publish tN 1234 (EpmdResponse.alive2Resp (some 99))).error =
      some PublishError.duplicateName ∧
    (Publish tN 1234 (EpmdResponse.alive2Resp (some 99))).accepting = false := by
  exact ⟨rfl, rfl⟩

/-- C10 counterexample: for the input `"a@b@c"` the source stores `"b"`
(the second field of the `'@'`-split) as the domain, while "the substring
after the first `'@'`" is `"b@c"`. -/
theorem newNode_domain_not_suffix_after_at :
    (NewNode "a@b@c" "k").map Node.Domain = some "b" ∧
    specAfterFirstAt "a@b@c" = "b@c" ∧
    ("b" : String) ≠ "b@c" := by
  exact ⟨rfl, rfl, by decide⟩

theorem alistLookup_insert_self {α β : Type} [DecidableEq α] (l : List (α × β)) (k : α) (v : β) :
    alistLookup (alistInsert l k v) k = some v := by
  simp [alistInsert, alistLookup]

theorem alistLookup_eq_none {α β : Type} [DecidableEq α] (l : List (α × β)) (k : α)
    (h : ∀ kv ∈ l, kv.1 ≠ k) : alistLookup l k = none := by
  induction l with
  | nil => rfl
  | cons kv rest ih =>
    have h1 : kv.1 ≠ k := h kv (List.mem_cons_self kv rest)
    rw [alistLookup, if_neg h1]
    exact ih (fun kv2 hm => h kv2 (List.mem_cons_of_mem kv hm))

theorem alistUpdate_keys {α β : Type} [DecidableEq α] (l : List (α × β)) (k : α) (v : β) :
    (alistUpdate l k v).map Prod.fst = l.map Prod.fst := by
  induction l with
  | nil => rfl
  | cons kv rest ih =>
    by_cases h : kv.1 = k
    · simp only [alistUpdate, List.map_cons, if_pos h] at ih ⊢
      rw [ih]
      simp [h]
    · simp only [alistUpdate, List.map_cons, if_neg h] at ih ⊢
      rw [ih]

theorem alistInsert_keys_mem {α β : Type} [DecidableEq α] (l : List (α × β)) (k : α) (v : β)
    (a : α) : a ∈ (alistInsert l k v).map Prod.fst ↔ a = k ∨ a ∈ l.map Prod.fst := by
  simp only [alistInsert, List.map_cons, List.mem_cons, List.mem_map, List.mem_filter,
    decide_eq_true_eq]
  constructor
  · rintro (h | ⟨kv, ⟨hm, _⟩, hfst⟩)
    · exact Or.inl h
    · exact Or.inr ⟨kv, hm, hfst⟩
  · rintro (h | ⟨kv, hm, hfst⟩)
    · exact Or.inl h
    · by_cases hak : a = k
      · exact Or.inl hak
      · exact Or.inr ⟨kv, ⟨hm, by rw [hfst]; exact hak⟩, hfst⟩

theorem alistInsert_keys_nodup {α β : Type} [DecidableEq α] (l : List (α × β)) (k : α) (v : β)
    (h : (l.map Prod.fst).Nodup) : ((alistInsert l k v).map Prod.fst).Nodup := by
  simp only [alistInsert, List.map_cons, List.nodup_cons]
  refine ⟨?_, ?_⟩
  · intro hmem
    rw [List.mem_map] at hmem
    obtain ⟨kv, hkv, hfst⟩ := hmem
    rw [List.mem_filter] at hkv
    have hne := hkv.2
    rw [decide_eq_true_eq] at hne
    exact hne hfst
  · exact List.Nodup.sublist (List.Sublist.map Prod.fst (List.filter_sublist l)) h

theorem allocId_step_eq_max (acc : Nat) (kv : Pid × ProcChannels)
    (h : kv.1.Id < 2 ^ 32 - 1) :
    (if acc ≤ kv.1.Id then (kv.1.Id + 1) % 2 ^ 32 else acc) = max acc (kv.1.Id + 1) := by
  have hm : (kv.1.Id + 1) % 2 ^ 32 = kv.1.Id + 1 := Nat.mod_eq_of_lt (by omega)
  by_cases hc : acc ≤ kv.1.Id
  · rw [if_pos hc, hm]
    omega
  · rw [if_neg hc]
    omega

theorem allocId_foldl_eq_max (chs : List (Pid × ProcChannels))
    (h : ∀ kv ∈ chs, kv.1.Id < 2 ^ 32 - 1) :
    ∀ acc, chs.foldl (fun id kv => if id ≤ kv.1.Id then (kv.1.Id + 1) % 2 ^ 32 else id) acc
      = chs.foldl (fun a kv => max a (kv.1.Id + 1)) acc := by
  induction chs with
  | nil => intro acc; rfl
  | cons kv rest ih =>
    intro acc
    simp only [List.foldl_cons]
    rw [allocId_step_eq_max acc kv (h kv (List.mem_cons_self kv rest))]
    exact ih (fun kv2 hm => h kv2 (List.mem_cons_of_mem kv hm)) _

theorem foldl_max_shift {α : Type} (f : α → Nat) (l : List α) :
    ∀ acc, l.foldl (fun a x => max a (f x + 1)) (acc + 1)
      = l.foldl (fun a x => max a (f x)) acc + 1 := by
  induction l with
  | nil => intro acc; rfl
  | cons x rest ih =>
    intro acc
    simp only [List.foldl_cons]
    have hmx : max (acc + 1) (f x + 1) = max acc (f x) + 1 := by omega
    rw [hmx]
    exact ih _

theorem foldl_max_init {α : Type} (f : α → Nat) (l : List α) :
    ∀ acc, l.foldl (fun a x => max a (f x)) acc
      = max acc (l.foldl (fun a x => max a (f x)) 0) := by
  induction l with
  | nil =>
    intro acc
    simp only [List.foldl_nil]
    omega
  | cons x rest ih =>
    intro acc
    simp only [List.foldl_cons]
    rw [ih (max acc (f x)), ih (max 0 (f x))]
    omega

theorem allocId_no_overflow (chs : List (Pid × ProcChannels))
    (h : ∀ kv ∈ chs, kv.1.Id < 2 ^ 32 - 1) :
    allocId chs = if chs.isEmpty then 0 else maxId chs + 1 := by
  cases chs with
  | nil => rfl
  | cons kv rest =>
    rw [allocId, allocId_foldl_eq_max _ h 0]
    simp only [List.foldl_cons, List.isEmpty_cons, if_neg Bool.false_ne_true, maxId]
    have h0 : max 0 (kv.1.Id + 1) = kv.1.Id + 1 := by omega
    have h1 : max 0 kv.1.Id = kv.1.Id := by omega
    rw [h0, h1]
    exact foldl_max_shift (fun x => x.1.Id) rest kv.1.Id

theorem mem_le_maxId (chs : List (Pid × ProcChannels)) (kv : Pid × ProcChannels)
    (h : kv ∈ chs) : kv.1.Id ≤ maxId chs := by
  induction chs with
  | nil => cases h
  | cons kv2 rest ih =>
    rw [maxId, List.foldl_cons,
      foldl_max_init (fun x : Pid × ProcChannels => x.1.Id) rest (max 0 kv2.1.Id)]
    rcases List.mem_cons.mp h with h1 | h1
    · subst h1
      omega
    · have h2 := ih h1
      rw [maxId] at h2
      omega

/-- C2 (amended): provided every id in the process table is strictly below
`2^32 - 1` (so the uint32 increment cannot wrap), `allocatePid` returns an
identity whose id is one greater than the maximum id present (0 if the
table is empty), whose serial is 0, and which is not already present in the
table; the scan result is then also independent of the map iteration
order, being determined by the maximum alone. -/
theorem allocatePid_fresh (n : Node)
    (h : ∀ kv ∈ n.channels, kv.1.Id < 2 ^ 32 - 1) :
    (allocatePid n).Id = (if n.channels.isEmpty then 0 else maxId n.channels + 1) ∧
    (allocatePid n).Serial = 0 ∧
    alistLookup n.channels (allocatePid n) = none := by
  refine ⟨allocId_no_overflow n.channels h, rfl, ?_⟩
  apply alistLookup_eq_none
  intro kv hm heq
  have hle := mem_le_maxId n.channels kv hm
  have hall := allocId_no_overflow n.channels h
  have hne : n.channels.isEmpty = false := by
    cases hch : n.channels with
    | nil => rw [hch] at hm; cases hm
    | cons a b => rfl
  rw [hne, if_neg Bool.false_ne_true] at hall
  have hid : kv.1.Id = allocId n.channels := by rw [heq]; rfl
  omega

/-- C2 witness: on a table holding the single id 1, allocation yields id 2,
serial 0, and a pid absent from the table. -/
theorem allocatePid_fresh_witness :
    (∀ kv ∈ n5.channels, kv.1.Id < 2 ^ 32 - 1) ∧
    ((allocatePid n5).Id = (if n5.channels.isEmpty then 0 else maxId n5.channels + 1) ∧
     (allocatePid n5).Serial = 0 ∧
     alistLookup n5.channels (allocatePid n5) = none) :=
  ⟨by decide, allocatePid_fresh n5 (by decide)⟩

/-- C6 (amended): `Spawn` reads the single option `"chan-size"` (there is
no `mailbox-size` or `control-size` option): when it is present as a
non-negative int `v` the spawn succeeds and all three queues get capacity
`v` (the new identity's mailbox starts empty); when it is present as a
negative int the `make(chan)` call panics and no process is created; when
it is absent the spawn succeeds with the direct and attributed queues at
the default capacity 100 but the control queue at the zero value 0, because
the default branch for `ctlChanSize` mistakenly assigns `chanSize`
instead. -/
theorem spawn_chan_size_semantics (n : Node) (options : List (String × OptVal)) :
    (optInt options "chan-size" = none →
      Spawn n options = some (storeProcess n ⟨[], [], [], 100, 100, 0⟩) ∧
      alistLookup (storeProcess n ⟨[], [], [], 100, 100, 0⟩).1.channels
        (storeProcess n ⟨[], [], [], 100, 100, 0⟩).2 = some ⟨[], [], [], 100, 100, 0⟩) ∧
    (∀ v : Int, optInt options "chan-size" = some v → 0 ≤ v →
      Spawn n options = some (storeProcess n ⟨[], [], [], v, v, v⟩) ∧
      alistLookup (storeProcess n ⟨[], [], [], v, v, v⟩).1.channels
        (storeProcess n ⟨[], [], [], v, v, v⟩).2 = some ⟨[], [], [], v, v, v⟩) ∧
    (∀ v : Int, optInt options "chan-size" = some v → v < 0 →
      Spawn n options = none) := by
  refine ⟨?_, ?_, ?_⟩
  · intro h
    refine ⟨?_, alistLookup_insert_self n.channels (allocatePid n) ⟨[], [], [], 100, 100, 0⟩⟩
    simp only [Spawn, h, if_neg (show ¬((100 : Int) < 0) by decide),
      if_neg (show ¬((0 : Int) < 0) by decide)]
  · intro v h hv
    have hng : ¬(v < 0) := not_lt.mpr hv
    refine ⟨?_, alistLookup_insert_self n.channels (allocatePid n) ⟨[], [], [], v, v, v⟩⟩
    simp only [Spawn, h, if_neg hng]
  · intro v h hv
    simp only [Spawn, h, if_pos hv]

/-- C6 witness: spawning with an empty option bag succeeds with capacities
(100, 100, 0); spawning with `chan-size = 5` succeeds with (5, 5, 5);
spawning with `chan-size = -1` panics and creates nothing. -/
theorem spawn_chan_size_semantics_witness :
    (optInt [] "chan-size" = none ∧
     (Spawn tN [] = some (storeProcess tN ⟨[], [], [], 100, 100, 0⟩) ∧
      alistLookup (storeProcess tN ⟨[], [], [], 100, 100, 0⟩).1.channels
        (storeProcess tN ⟨[], [], [], 100, 100, 0⟩).2 = some ⟨[], [], [], 100, 100, 0⟩)) ∧
    (optInt [("chan-size", OptVal.int 5)] "chan-size" = some 5 ∧ (0 : Int) ≤ 5 ∧
     (Spawn tN [("chan-size", OptVal.int 5)] = some (storeProcess tN ⟨[], [], [], 5, 5, 5⟩) ∧
      alistLookup (storeProcess tN ⟨[], [], [], 5, 5, 5⟩).1.channels
        (storeProcess tN ⟨[], [], [], 5, 5, 5⟩).2 = some ⟨[], [], [], 5, 5, 5⟩)) ∧
    (optInt [("chan-size", OptVal.int (-1))] "chan-size" = some (-1) ∧ ((-1 : Int) < 0) ∧
     Spawn tN [("chan-size", OptVal.int (-1))] = none) :=
  ⟨⟨rfl, (spawn_chan_size_semantics tN []).1 rfl⟩,
   ⟨rfl, by decide,
    (spawn_chan_size_semantics tN [("chan-size", OptVal.int 5)]).2.1 5 rfl (by decide)⟩,
   ⟨rfl, by decide,
    (spawn_chan_size_semantics tN [("chan-size", OptVal.int (-1))]).2.2 (-1) rfl (by decide)⟩⟩

/-- C7 (amended): a handshake response whose parse fails yields the
duplicate-name error without accepting and without touching the creation
stamp; a response parsing to a valid creation stamp *other than the in-band
failure codes 99 and 100* yields no error, starts accepting, and sets the
creation stamp from 0 to exactly the returned stamp, with the node's port
the bound port. -/
theorem publish_handshake_outcomes :
    (∀ (n : Node) (port : Nat),
       (Publish n port (EpmdResponse.alive2Resp none)).error =
           some PublishError.duplicateName ∧
       (Publish n port (EpmdResponse.alive2Resp none)).accepting = false ∧
       (Publish n port (EpmdResponse.alive2Resp none)).node.Creation = n.Creation) ∧
    (∀ (n : Node) (port c : Nat), n.Creation = 0 → port < 2 ^ 16 → c < 2 ^ 16 →
       c ≠ 99 → c ≠ 100 →
       (Publish n port (EpmdResponse.alive2Resp (some c))).error = none ∧
       (Publish n port (EpmdResponse.alive2Resp (some c))).accepting = true ∧
       (Publish n port (EpmdResponse.alive2Resp (some c))).node.Creation = c ∧
       (Publish n port (EpmdResponse.alive2Resp (some c))).node.Port = port) := by
  constructor
  · intro n port
    exact ⟨rfl, rfl, rfl⟩
  · intro n port c h0 hp hc h99 h100
    have hcm : c % 2 ^ 16 = c := Nat.mod_eq_of_lt hc
    have hpm : port % 2 ^ 16 = port := Nat.mod_eq_of_lt hp
    simp only [Publish, epmdCResult, hcm, hpm, if_neg h99, if_neg h100]
    refine ⟨?_, ?_, ?_, ?_⟩ <;> trivial

/-- C7 witness: on a fresh node, a failed parse errors with duplicate-name;
the valid stamp 3 publishes without error, accepting, with creation 3 and
port 1234. -/
theorem publish_handshake_outcomes_witness :
    ((Publish tN 1234 (EpmdResponse.alive2Resp none)).error =
         some PublishError.duplicateName ∧
     (Publish tN 1234 (EpmdResponse.alive2Resp none)).accepting = false ∧
     (Publish tN 1234 (EpmdResponse.alive2Resp none)).node.Creation = tN.Creation) ∧
    (tN.Creation = 0 ∧ 1234 < 2 ^ 16 ∧ 3 < 2 ^ 16 ∧ (3 : Nat) ≠ 99 ∧ (3 : Nat) ≠ 100 ∧
     ((Publish tN 1234 (EpmdResponse.alive2Resp (some 3))).error = none ∧
      (Publish tN 1234 (EpmdResponse.alive2Resp (some 3))).accepting = true ∧
      (Publish tN 1234 (EpmdResponse.alive2Resp (some 3))).node.Creation = 3 ∧
      (Publish tN 1234 (EpmdResponse.alive2Resp (some 3))).node.Port = 1234)) :=
  ⟨publish_handshake_outcomes.1 tN 1234,
   ⟨rfl, by decide, by decide, by decide, by decide,
    publish_handshake_outcomes.2 tN 1234 3 rfl (by decide) (by decide) (by decide)
      (by decide)⟩⟩

/-- C1 (amended): for a two-term `REG_SEND` frame addressed to a symbolic
name: if the name is bound in the registry *and the bound identity has a
process-table entry*, dispatch delivers the pair (sender, payload) onto
that identity's attributed `inFrom` queue; if the name is bound to an
identity absent from the table, no delivery occurs (the dispatcher blocks
forever on the nil channel); if the name is unbound — given that the zero
pid has no table entry, as in every node the constructors build — no
delivery occurs and nothing panics (again the nil-channel block). -/
theorem regsend_delivery (name : Atom) (fr cookie payload : Term) :
    (∀ (n : Node) (p : Pid) (pcs : ProcChannels),
       alistLookup n.registered name = some p →
       alistLookup n.channels p = some pcs →
       handleTerms n [Term.tuple [Term.int REG_SEND, fr, cookie, Term.atom name], payload] =
         HResult.ok { n with channels := alistUpdate n.channels p { pcs with inFrom := pcs.inFrom ++ [Term.tuple [fr, payload]] } }) ∧
    (∀ (n : Node) (p : Pid),
       alistLookup n.registered name = some p →
       alistLookup n.channels p = none →
       handleTerms n [Term.tuple [Term.int REG_SEND, fr, cookie, Term.atom name], payload] =
         HResult.blocked) ∧
    (∀ n : Node,
       alistLookup n.registered name = none →
       alistLookup n.channels Pid.zero = none →
       handleTerms n [Term.tuple [Term.int REG_SEND, fr, cookie, Term.atom name], payload] =
         HResult.blocked) := by
  refine ⟨?_, ?_, ?_⟩
  · intro n p pcs hreg hch
    simp [handleTerms, Element, RegSend, Whereis, hreg, SendFrom, hch]
  · intro n p hreg hch
    simp [handleTerms, Element, RegSend, Whereis, hreg, SendFrom, hch]
  · intro n hreg hch
    simp [handleTerms, Element, RegSend, Whereis, hreg, SendFrom, hch]

/-- C1 witness: on `nReg` (name bound, mailbox present) the frame `frameW`
delivers (sender, payload) onto `p1`'s attributed queue; on `nAbs` (name
bound to an identity without a mailbox) and on `nUnb` (name unbound)
dispatch blocks and delivers nothing. -/
theorem regsend_delivery_witness :
    (alistLookup nReg.registered "foo" = some p1 ∧
     alistLookup nReg.channels p1 = some pcs0 ∧
     handleTerms nReg frameW = HResult.ok { nReg with channels := alistUpdate nReg.channels p1 { pcs0 with inFrom := pcs0.inFrom ++ [Term.tuple [Term.pid pid0, Term.atom "hello"]] } }) ∧
    (alistLookup nAbs.registered "foo" = some p1 ∧
     alistLookup nAbs.channels p1 = none ∧
     handleTerms nAbs frameW = HResult.blocked) ∧
    (alistLookup nUnb.registered "foo" = none ∧
     alistLookup nUnb.channels Pid.zero = none ∧
     handleTerms nUnb frameW = HResult.blocked) :=
  ⟨⟨rfl, rfl,
    (regsend_delivery "foo" (Term.pid pid0) (Term.atom "") (Term.atom "hello")).1
      nReg p1 pcs0 rfl rfl⟩,
   ⟨rfl, rfl,
    (regsend_delivery "foo" (Term.pid pid0) (Term.atom "") (Term.atom "hello")).2.1
      nAbs p1 rfl rfl⟩,
   ⟨rfl, rfl,
    (regsend_delivery "foo" (Term.pid pid0) (Term.atom "") (Term.atom "hello")).2.2
      nUnb rfl rfl⟩⟩

theorem sendFrom_ok_shape (n : Node) (fr : Term) (p : Pid) (msg : Term) (n' : Node)
    (h : SendFrom n fr p msg = HResult.ok n') :
    n'.registered = n.registered ∧
    n'.channels.map Prod.fst = n.channels.map Prod.fst ∧
    ∃ q pcs x, alistLookup n.channels q = some pcs ∧
      n' = { n with channels := alistUpdate n.channels q { pcs with inFrom := pcs.inFrom ++ [x] } } := by
  unfold SendFrom at h
  cases hl : alistLookup n.channels p with
  | none => rw [hl] at h; cases h
  | some pcs =>
    rw [hl] at h
    simp only at h
    injection h with h
    subst h
    refine ⟨rfl, alistUpdate_keys n.channels p _, p, pcs, Term.tuple [fr, msg], hl, rfl⟩

theorem regSend_ok_shape (n : Node) (fr dest msg : Term) (n' : Node)
    (h : RegSend n fr dest msg = HResult.ok n') :
    n'.registered = n.registered ∧
    n'.channels.map Prod.fst = n.channels.map Prod.fst ∧
    ∃ q pcs x, alistLookup n.channels q = some pcs ∧
      n' = { n with channels := alistUpdate n.channels q { pcs with inFrom := pcs.inFrom ++ [x] } } := by
  unfold RegSend at h
  exact sendFrom_ok_shape n fr _ msg n' h

/-- C9: dispatching any decoded frame never touches the registry and never
adds or removes a process-table entry; the only possible effect of a
normally-returning dispatch is appending one element to the `inFrom` queue
of an identity already present in the table. In particular empty frames,
frames whose opcode is not `REG_SEND`, and `REG_SEND` frames with the wrong
number of top-level terms return with the state completely unchanged. -/
theorem dispatch_preserves_tables :
    (∀ (n : Node) (terms : List Term) (n' : Node),
       handleTerms n terms = HResult.ok n' →
       n'.registered = n.registered ∧
       n'.channels.map Prod.fst = n.channels.map Prod.fst ∧
       (n' = n ∨ ∃ q pcs x, alistLookup n.channels q = some pcs ∧
          n' = { n with channels := alistUpdate n.channels q { pcs with inFrom := pcs.inFrom ++ [x] } })) ∧
    (∀ n : Node, handleTerms n [] = HResult.ok n) ∧
    (∀ (n : Node) (a : Int) (tu rest : List Term), a ≠ REG_SEND →
       handleTerms n (Term.tuple (Term.int a :: tu) :: rest) = HResult.ok n) ∧
    (∀ (n : Node) (tu rest : List Term), rest.length ≠ 1 →
       handleTerms n (Term.tuple (Term.int REG_SEND :: tu) :: rest) = HResult.ok n) := by
  have hid : ∀ (n n' : Node), HResult.ok n = HResult.ok n' →
      n'.registered = n.registered ∧
      n'.channels.map Prod.fst = n.channels.map Prod.fst ∧
      (n' = n ∨ ∃ q pcs x, alistLookup n.channels q = some pcs ∧
         n' = { n with channels := alistUpdate n.channels q { pcs with inFrom := pcs.inFrom ++ [x] } }) := by
    intro n n' he
    injection he with he
    subst he
    exact ⟨rfl, rfl, Or.inl rfl⟩
  refine ⟨?_, ?_, ?_, ?_⟩
  · intro n terms n' h
    unfold handleTerms at h
    split at h
    · exact hid n n' h
    · split at h
      · split at h
        · split at h
          · split at h
            · split at h
              · obtain ⟨h1, h2, q, pcs, x, hl, he⟩ := regSend_ok_shape _ _ _ _ _ h
                exact ⟨h1, h2, Or.inr ⟨q, pcs, x, hl, he⟩⟩
              · cases h
            · exact hid n n' h
          · exact hid n n' h
        · exact hid n n' h
      · exact hid n n' h
    · exact hid n n' h
  · intro n
    rfl
  · intro n a tu rest ha
    simp [handleTerms, Element, ha]
  · intro n tu rest hr
    cases rest with
    | nil => simp [handleTerms, Element]
    | cons m rest2 =>
      cases rest2 with
      | nil => exact absurd rfl hr
      | cons m2 rest3 => simp [handleTerms, Element]

/-- C9 witness: dispatching the delivering frame `frameW` on `nReg`
(result `nReg'`) changes neither the registry nor the set of table keys,
and the three no-change frame shapes return the state unchanged. -/
theorem dispatch_preserves_tables_witness :
    (handleTerms nReg frameW = HResult.ok nReg' ∧
     nReg'.registered = nReg.registered ∧
     nReg'.channels.map Prod.fst = nReg.channels.map Prod.fst) ∧
    handleTerms nReg [] = HResult.ok nReg ∧
    handleTerms nReg [Term.tuple [Term.int 2, Term.atom "z"], Term.atom "x"] = HResult.ok nReg ∧
    handleTerms nReg [Term.tuple [Term.int REG_SEND]] = HResult.ok nReg :=
  ⟨⟨rfl, (dispatch_preserves_tables.1 nReg frameW nReg' rfl).1,
    (dispatch_preserves_tables.1 nReg frameW nReg' rfl).2.1⟩,
   dispatch_preserves_tables.2.1 nReg,
   dispatch_preserves_tables.2.2.1 nReg 2 [Term.atom "z"] [Term.atom "x"] (by decide),
   dispatch_preserves_tables.2.2.2 nReg [] [] (by decide)⟩

theorem registerAll_keys (calls : List (Atom × Pid)) :
    ∀ n : Node, (n.registered.map Prod.fst).Nodup →
      (((registerAll n calls).registered.map Prod.fst).Nodup ∧
       ∀ a, a ∈ (registerAll n calls).registered.map Prod.fst ↔
         a ∈ n.registered.map Prod.fst ∨ a ∈ calls.map Prod.fst) := by
  induction calls with
  | nil =>
    intro n h
    exact ⟨h, fun a => by simp [registerAll]⟩
  | cons c rest ih =>
    intro n h
    have hreg : (Register n c.1 c.2).registered = alistInsert n.registered c.1 c.2 := rfl
    have hstep : registerAll n (c :: rest) = registerAll (Register n c.1 c.2) rest := rfl
    have hnd : ((Register n c.1 c.2).registered.map Prod.fst).Nodup := by
      rw [hreg]
      exact alistInsert_keys_nodup n.registered c.1 c.2 h
    obtain ⟨ihn, ihm⟩ := ih (Register n c.1 c.2) hnd
    refine ⟨by rw [hstep]; exact ihn, ?_⟩
    intro a
    rw [hstep, ihm a, hreg, alistInsert_keys_mem]
    simp only [List.map_cons, List.mem_cons]
    tauto

/-- C8: starting from an empty registry, after any sequence of `Register`
calls `Registered` lists exactly the set of names ever registered — no
duplicates, every registered name present, no other name present — a
characterisation independent of the enumeration order. -/
theorem registered_names_exact (n0 : Node) (calls : List (Atom × Pid))
    (h : n0.registered = []) :
    (Registered (registerAll n0 calls)).Nodup ∧
    (Registered (registerAll n0 calls)).toFinset = (calls.map Prod.fst).toFinset := by
  have h0 : (n0.registered.map Prod.fst).Nodup := by
    rw [h]
    exact List.nodup_nil
  obtain ⟨hn, hm⟩ := registerAll_keys calls n0 h0
  refine ⟨hn, ?_⟩
  ext a
  simp only [List.mem_toFinset]
  show a ∈ (registerAll n0 calls).registered.map Prod.fst ↔ _
  rw [hm a, h]
  simp

/-- C8 witness: the concrete call sequence `callsW` (which registers `"x"`
twice) yields a duplicate-free listing whose name set is exactly
`{"x", "y"}`. -/
theorem registered_names_exact_witness :
    tN.registered = [] ∧
    (Registered (registerAll tN callsW)).Nodup ∧
    (Registered (registerAll tN callsW)).toFinset = (callsW.map Prod.fst).toFinset :=
  ⟨rfl, (registered_names_exact tN callsW rfl).1, (registered_names_exact tN callsW rfl).2⟩

theorem splitChar_ne_nil (s : List Char) (c : Char) : splitChar s c ≠ [] := by
  cases s with
  | nil => simp [splitChar]
  | cons a rest =>
    by_cases h : a = c
    · simp [splitChar, h]
    · simp only [splitChar, if_neg h]
      cases hsp : splitChar rest c <;> simp

theorem splitChar_head (s : List Char) (c : Char) :
    (splitChar s c).head? = some (s.takeWhile (fun a => decide (a ≠ c))) := by
  induction s with
  | nil => rfl
  | cons a rest ih =>
    by_cases h : a = c
    · subst h
      simp [splitChar, List.takeWhile_cons]
    · cases hsp : splitChar rest c with
      | nil => exact absurd hsp (splitChar_ne_nil rest c)
      | cons hd tl =>
        rw [hsp] at ih
        simp only [List.head?] at ih
        injection ih with ih
        simp only [splitChar, if_neg h, hsp, List.head?, List.takeWhile_cons]
        rw [if_pos (by simp [h])]
        rw [ih]

theorem splitChar_not_mem (s : List Char) (c : Char) (h : c ∉ s) : splitChar s c = [s] := by
  induction s with
  | nil => rfl
  | cons a rest ih =>
    have ha : ¬a = c := fun he => h (by rw [he]; exact List.mem_cons_self c rest)
    have hrest : c ∉ rest := fun hm => h (List.mem_cons_of_mem a hm)
    simp only [splitChar, if_neg ha, ih hrest]

theorem splitChar_mem (s : List Char) (c : Char) (h : c ∈ s) :
    splitChar s c = (s.takeWhile (fun a => decide (a ≠ c))) ::
      splitChar ((s.dropWhile (fun a => decide (a ≠ c))).tail) c := by
  induction s with
  | nil => cases h
  | cons a rest ih =>
    by_cases ha : a = c
    · subst ha
      simp [splitChar, List.takeWhile_cons, List.dropWhile_cons]
    · have hc : c ∈ rest := by
        rcases List.mem_cons.mp h with h1 | h1
        · exact absurd h1.symm ha
        · exact h1
      simp only [splitChar, if_neg ha, ih hc, List.takeWhile_cons, List.dropWhile_cons]
      rw [if_pos (by simp [ha]), if_pos (by simp [ha])]

/-- C10 (amended): when the name contains at least one `'@'`, `NewNode`
is total — the split has at least two parts, so the index accesses cannot
go out of range — and returns the node whose short name is the substring
before the first `'@'` and whose domain is the second field of the split,
i.e. the substring strictly between the first `'@'` and the next `'@'`
(the rest of the string when there is no second `'@'`); full name, port,
creation and the two tables are as claimed. When the name contains no
`'@'`, the split has a single part and the `ns[1]` access panics. -/
theorem newNode_split_semantics :
    (∀ (name cookie : String), '@' ∈ name.data →
       NewNode name cookie = some
         { FullName := name, Name := specShortName name,
           Domain := specDomainSecondPart name, Port := 0, Type' := 77,
           Protocol := 0, HighVsn := 5, LowVsn := 5, Creation := 0,
           Cookie := cookie, channels := [], registered := [] }) ∧
    (∀ (name cookie : String), '@' ∉ name.data → NewNode name cookie = none) := by
  constructor
  · intro name cookie h
    have hsp := splitChar_mem name.data '@' h
    have hhd := splitChar_head ((name.data.dropWhile (fun a => decide (a ≠ '@'))).tail) '@'
    cases hsp2 : splitChar ((name.data.dropWhile (fun a => decide (a ≠ '@'))).tail) '@' with
    | nil => exact absurd hsp2 (splitChar_ne_nil _ _)
    | cons hd tl =>
      rw [hsp2] at hsp hhd
      simp only [List.head?] at hhd
      injection hhd with hhd
      simp only [NewNode, goSplit, hsp, List.map_cons, List.get?]
      rw [hhd]
      rfl
  · intro name cookie h
    simp only [NewNode, goSplit, splitChar_not_mem name.data '@' h, List.map_cons,
      List.map_nil, List.get?]

/-- C10 witness: `"a@b"` contains `'@'` and builds the expected node;
`"ab"` contains no `'@'` and `NewNode` does not return a node. -/
theorem newNode_split_semantics_witness :
    ('@' ∈ "a@b".data ∧
     NewNode "a@b" "c" = some
       { FullName := "a@b", Name := specShortName "a@b",
         Domain := specDomainSecondPart "a@b", Port := 0, Type' := 77,
         Protocol := 0, HighVsn := 5, LowVsn := 5, Creation := 0,
         Cookie := "c", channels := [], registered := [] }) ∧
    ('@' ∉ "ab".data ∧ NewNode "ab" "c" = none) :=
  ⟨⟨by decide, newNode_split_semantics.1 "a@b" "c" (by decide)⟩,
   ⟨by decide, newNode_split_semantics.2 "ab" "c" (by decide)⟩⟩

end EclusNode
